import Mathlib

/-!
# RUMBLE round settlement: shallow embedding and verification

This file embeds the round settlement core of the RUMBLE repository:

* the Anchor/Rust on-chain program `contracts/rumble.rs` (instructions
  `initialize`, `deposit`, `evaluate_trading_activity`, `select_winners`,
  `reset_game` over the `GameState` account), and
* the NestJS backend `GameService` (`backend/src/game/game.service.ts`,
  methods `deposit` and `selectWinners`).

Modelling conventions:

* `Pubkey` values and backend string keys are opaque identities, embedded
  as `Nat` with decidable equality.
* `u64` amounts are `Nat` together with explicit `checked_add` /
  `checked_div` operations that fail past `U64MAX = 2 ^ 64 - 1`, exactly
  where the source uses `checked_add` / `checked_div`.  Arithmetic the
  source performs unchecked (`prize_pool * 90 / 100`, lamport credits) is
  embedded as plain `Nat` arithmetic.
* `Clock::get()?.unix_timestamp` is an explicit `now : Int` parameter.
* An Anchor instruction that returns `Err` aborts the enclosing Solana
  transaction and all account writes are discarded; the `run*` wrappers
  below make that revert-on-error semantics explicit.
* The external burn call `rumble_token_burner.burn(..)` either succeeds or
  fails; its outcome is an explicit `burnOk : Bool` parameter, and the
  winner lamport accounts passed in `ctx.accounts.winner_accounts` are an
  explicit list.
* Backend JS `number` amounts are embedded as `Int` (the backend performs
  no positivity or overflow checks); `Math.floor` division on non-negative
  operands is `Int.fdiv`.
-/

/-- Error codes of the on-chain program (`#[error_code] pub enum RumbleError`),
plus `BurnFailed` standing for the error propagated by
`ctx.accounts.rumble_token_burner.burn(buyback_amount)?`. -/
inductive RumbleError where
  | InvalidDeposit
  | NoDeposits
  | GameAlreadyActive
  | Overflow
  | DivisionByZero
  | WinnerAccountNotFound
  | GameNotActive
  | BurnFailed
deriving DecidableEq, Repr

/-- `pub struct Player { key, deposit, trading_score, last_active }`. -/
structure Player where
  key : Nat
  deposit : Nat
  trading_score : Nat
  last_active : Int
deriving DecidableEq, Repr

/-- `pub struct GameState` account data. -/
structure GameState where
  total_deposits : Nat
  prize_pool : Nat
  active : Bool
  players : List Player
  winners : List Player
  game_id : Nat
deriving DecidableEq, Repr

/-- A winner lamport account from `ctx.accounts.winner_accounts`. -/
structure Account where
  key : Nat
  lamports : Nat
deriving DecidableEq, Repr

/-- Maximum of the unsigned 64-bit domain used for pool and deposit amounts. -/
def U64MAX : Nat := 2 ^ 64 - 1

/-- `u64::checked_add`: `none` exactly when the sum leaves the `u64` domain. -/
def checkedAdd (a b : Nat) : Option Nat :=
  if a + b ≤ U64MAX then some (a + b) else none

/-- `u64::checked_div`: `none` exactly when the divisor is zero. -/
def checkedDiv (a b : Nat) : Option Nat :=
  if b = 0 then none else some (a / b)

/-- `initialize`: fresh `GameState` with zero pools, inactive, empty
player and winner lists. -/
def initGame (gid : Nat) : GameState :=
  { total_deposits := 0, prize_pool := 0, active := false,
    players := [], winners := [], game_id := gid }

/-- The player-list update performed by `deposit`: the first player whose
`key` matches receives `deposit.checked_add(amount)` (failing on overflow);
when no player matches, a new `Player` with `trading_score = 0` and
`last_active = now` is pushed at the end of the vector. -/
def updPlayersChecked (ps : List Player) (k : Nat) (a : Nat) (now : Int) :
    Option (List Player) :=
  match ps with
  | [] => some [{ key := k, deposit := a, trading_score := 0, last_active := now }]
  | p :: rest =>
    if p.key = k then
      (checkedAdd p.deposit a).map (fun d => { p with deposit := d } :: rest)
    else
      (updPlayersChecked rest k a now).map (fun rest2 => p :: rest2)

/-- `pub fn deposit(ctx, amount)`: requires `amount > 0`
(`RumbleError::InvalidDeposit`), updates the player's deposit and
`total_deposits` with checked addition (`RumbleError::Overflow`), and
re-assigns `prize_pool = total_deposits`.  Note the source checks no game
state flag: `deposit` is legal in every state. -/
def rustDeposit (s : GameState) (k : Nat) (amount : Nat) (now : Int) :
    Except RumbleError GameState :=
  if amount = 0 then .error .InvalidDeposit
  else
    match updPlayersChecked s.players k amount now with
    | none => .error .Overflow
    | some ps2 =>
      match checkedAdd s.total_deposits amount with
      | none => .error .Overflow
      | some t2 =>
        .ok { s with players := ps2, total_deposits := t2, prize_pool := t2 }

/-- Solana revert-on-error semantics of the `deposit` instruction: on
`Err` the transaction aborts and the account keeps its prior state. -/
def runDeposit (s : GameState) (k : Nat) (amount : Nat) (now : Int) :
    GameState × Option RumbleError :=
  match rustDeposit s k amount now with
  | .ok s2 => (s2, none)
  | .error e => (s, some e)

/-- One field write of `evaluate_trading_activity`:
`player.trading_score = score; player.last_active = now`. -/
def updScore (p : Player) (sc : Nat) (now : Int) : Player :=
  { p with trading_score := sc, last_active := now }

/-- `players.iter_mut().find(|p| p.key == player_key)` followed by the
score write: updates the first player with the given key, or leaves the
list unchanged when no player matches. -/
def updFirst (ps : List Player) (k : Nat) (sc : Nat) (now : Int) : List Player :=
  match ps with
  | [] => []
  | p :: rest =>
    if p.key = k then updScore p sc now :: rest
    else p :: updFirst rest k sc now

/-- The loop body of `evaluate_trading_activity` over the `scores` vector. -/
def applyScores (ps : List Player) (scores : List (Nat × Nat)) (now : Int) :
    List Player :=
  match scores with
  | [] => ps
  | (k, sc) :: rest => applyScores (updFirst ps k sc now) rest now

/-- `pub fn evaluate_trading_activity(ctx, scores)`: overwrites
`trading_score` (and `last_active`) of each player named in `scores`;
keys absent from the player vector are skipped; always returns `Ok`. -/
def evaluateTradingActivity (s : GameState) (scores : List (Nat × Nat))
    (now : Int) : GameState :=
  { s with players := applyScores s.players scores now }

/-- `((total_players as f64) * 0.10).ceil() as usize`.  For every
`n < 2 ^ 49` the `f64` product of `n` and the stored value of `0.10`
differs from `n / 10` by strictly less than half an ulp, so the `f64`
ceiling equals the exact ceiling `⌈n / 10⌉ = (n + 9) / 10`; player vectors
of a Solana account are far below that bound.  The backend
`Math.ceil(players.length * 0.10)` is the same computation. -/
def numWinners (n : Nat) : Nat := (n + 9) / 10

/-- Stable insertion of `x` into `l`: `x` walks past elements of strictly
greater score and lands before the first element of score `≤ score x`. -/
def insertDesc (score : α → Nat) (x : α) (l : List α) : List α :=
  match l with
  | [] => [x]
  | y :: ys => if score x < score y then y :: insertDesc score x ys
               else x :: y :: ys

/-- Stable descending sort by `score`; embeds
`sorted_players.sort_by(|a, b| b.trading_score.cmp(&a.trading_score))`
(a stable sort in Rust) and the backend's stable
`players.sort((a, b) => b.tradingScore - a.tradingScore)`. -/
def sortDesc (score : α → Nat) (l : List α) : List α :=
  match l with
  | [] => []
  | x :: xs => insertDesc score x (sortDesc score xs)

/-- Credit `amt` lamports to the first account matching `k`
(`winner_accounts.iter_mut().find(|w| w.key == winner.key)`); `none` when
no account matches (`RumbleError::WinnerAccountNotFound`).  The `+=` on
lamports is unchecked in the source and embedded as plain addition. -/
def creditFirst (accs : List Account) (k : Nat) (amt : Nat) :
    Option (List Account) :=
  match accs with
  | [] => none
  | a :: rest =>
    if a.key = k then some ({ a with lamports := a.lamports + amt } :: rest)
    else (creditFirst rest k amt).map (fun rest2 => a :: rest2)

/-- The payout loop of `select_winners`: credits `prize_per_winner` to each
winner's account in order, failing on the first missing account. -/
def payWinners (accs : List Account) (ws : List Player) (amt : Nat) :
    Option (List Account) :=
  match ws with
  | [] => some accs
  | w :: rest =>
    match creditFirst accs w.key amt with
    | none => none
    | some accs2 => payWinners accs2 rest amt

/-- Data of the `WinnersSelectedEvent` emitted by `select_winners`. -/
structure WinnersEvt where
  winners : List Nat
  prizePerWinner : Nat
  buybackAmount : Nat
deriving DecidableEq, Repr

/-- Result of a successful `select_winners` call: the updated game account,
the updated winner lamport accounts, and the emitted event data. -/
structure SettleResult where
  state : GameState
  accounts : List Account
  event : WinnersEvt
deriving DecidableEq, Repr

/-- `pub fn select_winners(ctx)`, in source order: guards
(`NoDeposits`, `GameAlreadyActive`); winner count `ceil(n * 0.10)`; stable
sort descending by `trading_score`; `game_state.winners` written before
the payout loop; `prize_pool * 90 / 100` and `prize_pool * 10 / 100`
computed independently; `checked_div` by the winner count
(`DivisionByZero`); lamport credits (`WinnerAccountNotFound`); external
burn (`BurnFailed`); finally `total_deposits = 0`, `prize_pool = 0`,
`active = true`.  An `Err` result models the aborted transaction, whose
intermediate account writes the Solana runtime discards. -/
def selectWinnersCore (s : GameState) (accs : List Account) (burnOk : Bool) :
    Except RumbleError SettleResult :=
  if s.total_deposits = 0 then .error .NoDeposits
  else if s.active then .error .GameAlreadyActive
  else
    let k := numWinners s.players.length
    let ws := (sortDesc Player.trading_score s.players).take k
    let s1 := { s with winners := ws }
    let prizeForWinners := s1.prize_pool * 90 / 100
    let buyback := s1.prize_pool * 10 / 100
    match checkedDiv prizeForWinners k with
    | none => .error .DivisionByZero
    | some per =>
      match payWinners accs ws per with
      | none => .error .WinnerAccountNotFound
      | some accs2 =>
        if burnOk then
          .ok { state := { s1 with
                           total_deposits := 0
                           prize_pool := 0
                           active := true },
                accounts := accs2,
                event := { winners := ws.map Player.key,
                           prizePerWinner := per, buybackAmount := buyback } }
        else .error .BurnFailed

/-- Solana revert-on-error semantics of the `select_winners` instruction:
on `Err` the transaction aborts and both the game account and every winner
lamport account keep their prior state. -/
def runSelectWinners (s : GameState) (accs : List Account) (burnOk : Bool) :
    (GameState × List Account) × Option RumbleError :=
  match selectWinnersCore s accs burnOk with
  | .ok r => ((r.state, r.accounts), none)
  | .error e => ((s, accs), some e)

/-- `pub fn reset_game(ctx)`: requires `active` (`GameNotActive`), clears
players and winners, zeroes both pools, deactivates. -/
def resetGame (s : GameState) : Except RumbleError GameState :=
  if s.active then
    .ok { s with
          active := false
          players := []
          winners := []
          total_deposits := 0
          prize_pool := 0 }
  else .error .GameNotActive

/-- Sum of the `deposit` fields of a player list. -/
def sumDeposits (ps : List Player) : Nat := (ps.map Player.deposit).sum

/-- Game states reachable from `initialize` through successful
instructions of the on-chain program. -/
inductive Reachable : GameState → Prop where
  | init (gid : Nat) : Reachable (initGame gid)
  | dep {s s2 : GameState} (k a : Nat) (now : Int) :
      Reachable s → rustDeposit s k a now = .ok s2 → Reachable s2
  | eval {s : GameState} (scores : List (Nat × Nat)) (now : Int) :
      Reachable s → Reachable (evaluateTradingActivity s scores now)
  | select {s : GameState} {r : SettleResult} (accs : List Account)
      (burnOk : Bool) :
      Reachable s → selectWinnersCore s accs burnOk = .ok r →
      Reachable r.state
  | reset {s s2 : GameState} :
      Reachable s → resetGame s = .ok s2 → Reachable s2

/-! ## Backend `GameService` model -/

/-- Backend error: the thrown `Error('Game is not active or does not
exist.')` (also used for a missing game row) and a failure propagated from
the awaited `buybackAndBurnTokens` collaborator. -/
inductive BError where
  | GameNotActiveOrMissing
  | GameNotFound
  | BurnFailed
deriving DecidableEq, Repr

/-- Backend `Player` entity row (fields used by the game flow).  The JS
`number` deposit is an `Int`: the backend never checks positivity. -/
structure BPlayer where
  key : Nat
  deposit : Int
  tradingScore : Nat
deriving DecidableEq, Repr

/-- Backend `GameState` entity row. -/
structure BGame where
  totalDeposits : Int
  prizePool : Int
  active : Bool
  players : List BPlayer
deriving DecidableEq, Repr

/-- Backend `Winner` entity row created by `winnerRepository.create`. -/
structure BWinner where
  playerKey : Nat
  prize : Int
deriving DecidableEq, Repr

/-- The player update of backend `deposit`: `player.deposit += amount` on
the found row, or `playerRepository.create({deposit: amount,
tradingScore: 0})` appended. -/
def addDepositB (ps : List BPlayer) (k : Nat) (a : Int) : List BPlayer :=
  match ps with
  | [] => [{ key := k, deposit := a, tradingScore := 0 }]
  | p :: rest =>
    if p.key = k then { p with deposit := p.deposit + a } :: rest
    else p :: addDepositB rest k a

/-- `GameService.deposit(playerKey, amount, gameId)`: throws when the game
row is missing or `game.active`; otherwise adds `amount` (unchecked, any
sign) to the player row and `totalDeposits`, and re-assigns
`prizePool = totalDeposits`. -/
def backendDeposit (game : Option BGame) (k : Nat) (amount : Int) :
    Except BError BGame :=
  match game with
  | none => .error .GameNotActiveOrMissing
  | some g =>
    if g.active then .error .GameNotActiveOrMissing
    else
      .ok { g with
            players := addDepositB g.players k amount
            totalDeposits := g.totalDeposits + amount
            prizePool := g.totalDeposits + amount }

/-- `GameService.selectWinners(gameId)`.  Returns the list of `Winner`
rows persisted by `winnerRepository.save` (these saves are individual
awaited writes, not wrapped in any database transaction — they survive a
later failure) together with the final outcome: `ok` carries the game row
saved at the end (`active = true`, `prizePool = 0`; `totalDeposits` is not
zeroed by this method), and a burn failure (`burnOk = false`, a rejection
of the awaited `buybackAndBurnTokens`) aborts before the game row is
saved.  `prizePerWinner` is `Math.floor` division; when there are zero
winners the JS value (`Infinity`/`NaN`) is never used because no winner
row is created, so it is embedded as `0`. -/
def backendSelectWinners (game : Option BGame) (burnOk : Bool) :
    List BWinner × Except BError BGame :=
  match game with
  | none => ([], .error .GameNotActiveOrMissing)
  | some g =>
    if g.active then ([], .error .GameNotActiveOrMissing)
    else
      let k := numWinners g.players.length
      let tops := (sortDesc BPlayer.tradingScore g.players).take k
      let prizeForWinners := (g.prizePool * 90).fdiv 100
      let per := if k = 0 then 0 else prizeForWinners.fdiv k
      let rows := tops.map (fun p => { playerKey := p.key, prize := per : BWinner })
      if burnOk then (rows, .ok { g with active := true, prizePool := 0 })
      else (rows, .error .BurnFailed)

/-! ## Spec-side scoring model (for refinement comparison)

The repository's own documentation ("Scoring Formula", "Winner Selection
Criteria") specifies a four-signal composite ranking; the code under test
ranks by `trading_score` alone.  The definitions below follow the
documentation's words and exist only to be compared against the code. -/

/-- Modelled from the spec: the composite ranking score
`0.40 * holdings_score + 0.30 * activity_score_normalized +
0.20 * speed_score + 0.10 * random_factor`, on the spec's common
fixed-point range 0–1 000 000; none of these sub-scores (holdings, speed,
random factor) exist in the source `Player` data. -/
def specComposite (holdingsScore activityNorm speedScore randomFactor : Nat) :
    Nat :=
  (4 * holdingsScore + 3 * activityNorm + 2 * speedScore + randomFactor) / 10

/-- Insertion of `x` before the first element `y` with `le x y`. -/
def insertBy (le : α → α → Bool) (x : α) (l : List α) : List α :=
  match l with
  | [] => [x]
  | y :: ys => if le x y then x :: y :: ys else y :: insertBy le x ys

/-- Insertion sort by a boolean "comes before or equal" relation. -/
def sortBySpec (le : α → α → Bool) (l : List α) : List α :=
  match l with
  | [] => []
  | x :: xs => insertBy le x (sortBySpec le xs)

/-- Modelled from the spec: the claimed ranking relation "descending by
score, ties by ascending participant identity" — a total order, applied
to the code's player records with the code's trading score as the
ranking score. -/
def specRank (a b : Player) : Bool :=
  (decide (b.trading_score < a.trading_score)) ||
    ((a.trading_score == b.trading_score) && (a.key ≤ b.key))

/-- Modelled from the spec: the deterministic ordering the spec
attributes to `settle` (sorting by `specRank`, whose totality makes the
output order unique).  Used only as the comparison point for the
tie-break claim. -/
def specTieSort (ps : List Player) : List Player :=
  sortBySpec specRank ps

/-- Decidable equality on `Except`, for evaluating concrete runs. -/
instance exceptDecEq {e : Type u} {a : Type v} [DecidableEq e] [DecidableEq a] :
    DecidableEq (Except e a) := fun x y =>
  match x, y with
  | .ok v, .ok w =>
    match decEq v w with
    | isTrue h => isTrue (by rw [h])
    | isFalse h => isFalse (fun hc => h (Except.ok.inj hc))
  | .error v, .error w =>
    match decEq v w with
    | isTrue h => isTrue (by rw [h])
    | isFalse h => isFalse (fun hc => h (Except.error.inj hc))
  | .ok _, .error _ => isFalse (fun hc => Except.noConfusion hc)
  | .error _, .ok _ => isFalse (fun hc => Except.noConfusion hc)

/-- Truth value of an `Except` being a success. -/
def exOk (e : Except ε α) : Bool :=
  match e with
  | .ok _ => true
  | .error _ => false

/-- Index of the first occurrence of key `k` in a key list. -/
def idxOfKey (ks : List Nat) (k : Nat) : Option Nat :=
  match ks with
  | [] => none
  | x :: rest => if x = k then some 0 else (idxOfKey rest k).map (· + 1)

/-- The last score that the `scores` vector writes to position `j` of a
player list with keys `ks` (later entries of `scores` overwrite earlier
ones, so the head entry is consulted only when the tail writes nothing). -/
def lastW (ks : List Nat) (ss : List (Nat × Nat)) (j : Nat) : Option Nat :=
  match ss with
  | [] => none
  | e :: rest =>
    match lastW ks rest j with
    | some v => some v
    | none => if idxOfKey ks e.1 = some j then some e.2 else none

/-! ## Helper lemmas -/

lemma checkedAdd_eq_some {a b c : Nat} (h : checkedAdd a b = some c) :
    c = a + b ∧ a + b ≤ U64MAX := by
  unfold checkedAdd at h
  split at h
  · cases h; exact ⟨rfl, by assumption⟩
  · cases h

lemma checkedAdd_eq_none {a b : Nat} (h : checkedAdd a b = none) :
    U64MAX < a + b := by
  unfold checkedAdd at h
  split at h
  · cases h
  · omega

lemma checkedDiv_eq_some {a b c : Nat} (h : checkedDiv a b = some c) :
    b ≠ 0 ∧ c = a / b := by
  unfold checkedDiv at h
  split at h
  · cases h
  · cases h; exact ⟨by assumption, rfl⟩

lemma updPlayersChecked_sum {ps : List Player} {k a : Nat} {now : Int}
    {ps2 : List Player} (h : updPlayersChecked ps k a now = some ps2) :
    sumDeposits ps2 = sumDeposits ps + a := by
  induction ps generalizing ps2 with
  | nil =>
    unfold updPlayersChecked at h
    cases h
    simp [sumDeposits]
  | cons p rest ih =>
    unfold updPlayersChecked at h
    split at h
    · cases hca : checkedAdd p.deposit a with
      | none => rw [hca] at h; cases h
      | some d =>
        rw [hca] at h
        cases h
        obtain ⟨hd, _⟩ := checkedAdd_eq_some hca
        simp [sumDeposits, hd]
        omega
    · cases hup : updPlayersChecked rest k a now with
      | none => rw [hup] at h; cases h
      | some rest2 =>
        rw [hup] at h
        cases h
        have := ih hup
        simp [sumDeposits] at this ⊢
        omega

lemma rustDeposit_ok_fields {s : GameState} {k a : Nat} {now : Int}
    {s2 : GameState} (h : rustDeposit s k a now = .ok s2) :
    s2.total_deposits = s.total_deposits + a ∧
    s2.prize_pool = s.total_deposits + a ∧
    s2.active = s.active ∧ s2.winners = s.winners ∧
    s2.game_id = s.game_id ∧
    sumDeposits s2.players = sumDeposits s.players + a := by
  unfold rustDeposit at h
  split at h
  · cases h
  · cases hup : updPlayersChecked s.players k a now with
    | none => rw [hup] at h; cases h
    | some ps2 =>
      rw [hup] at h
      cases hca : checkedAdd s.total_deposits a with
      | none => rw [hca] at h; cases h
      | some t2 =>
        rw [hca] at h
        cases h
        obtain ⟨ht, _⟩ := checkedAdd_eq_some hca
        exact ⟨ht, ht, rfl, rfl, rfl, updPlayersChecked_sum hup⟩

lemma updFirst_map_key (ps : List Player) (k sc : Nat) (now : Int) :
    (updFirst ps k sc now).map Player.key = ps.map Player.key := by
  induction ps with
  | nil => rfl
  | cons p rest ih =>
    unfold updFirst
    split
    · simp [updScore]
    · simp [ih]

lemma updFirst_map_deposit (ps : List Player) (k sc : Nat) (now : Int) :
    (updFirst ps k sc now).map Player.deposit = ps.map Player.deposit := by
  induction ps with
  | nil => rfl
  | cons p rest ih =>
    unfold updFirst
    split
    · simp [updScore]
    · simp [ih]

lemma applyScores_map_key (ps : List Player) (scores : List (Nat × Nat))
    (now : Int) :
    (applyScores ps scores now).map Player.key = ps.map Player.key := by
  induction scores generalizing ps with
  | nil => rfl
  | cons e rest ih =>
    obtain ⟨k, sc⟩ := e
    unfold applyScores
    rw [ih, updFirst_map_key]

lemma applyScores_sumDeposits (ps : List Player) (scores : List (Nat × Nat))
    (now : Int) :
    sumDeposits (applyScores ps scores now) = sumDeposits ps := by
  induction scores generalizing ps with
  | nil => rfl
  | cons e rest ih =>
    obtain ⟨k, sc⟩ := e
    unfold applyScores
    rw [ih]
    unfold sumDeposits
    rw [updFirst_map_deposit]

lemma length_insertDesc (score : α → Nat) (x : α) (l : List α) :
    (insertDesc score x l).length = l.length + 1 := by
  induction l with
  | nil => rfl
  | cons y ys ih =>
    unfold insertDesc
    split
    · simp [ih]
    · simp

lemma length_sortDesc (score : α → Nat) (l : List α) :
    (sortDesc score l).length = l.length := by
  induction l with
  | nil => rfl
  | cons x xs ih =>
    unfold sortDesc
    rw [length_insertDesc, ih]
    rfl

lemma selectWinnersCore_ok_fields {s : GameState} {accs : List Account}
    {burnOk : Bool} {r : SettleResult}
    (h : selectWinnersCore s accs burnOk = .ok r) :
    s.total_deposits ≠ 0 ∧ s.active = false ∧ burnOk = true ∧
    numWinners s.players.length ≠ 0 ∧
    r.state.winners =
      (sortDesc Player.trading_score s.players).take
        (numWinners s.players.length) ∧
    r.state.total_deposits = 0 ∧ r.state.prize_pool = 0 ∧
    r.state.active = true ∧ r.state.players = s.players ∧
    r.state.game_id = s.game_id ∧
    r.event.winners = r.state.winners.map Player.key ∧
    r.event.prizePerWinner =
      s.prize_pool * 90 / 100 / numWinners s.players.length ∧
    r.event.buybackAmount = s.prize_pool * 10 / 100 := by
  unfold selectWinnersCore at h
  split at h
  · cases h
  · split at h
    · cases h
    · cases hdiv : checkedDiv (s.prize_pool * 90 / 100)
          (numWinners s.players.length) with
      | none => simp only [hdiv] at h; cases h
      | some per =>
        simp only [hdiv] at h
        cases hpay : payWinners accs
            ((sortDesc Player.trading_score s.players).take
              (numWinners s.players.length)) per with
        | none => simp only [hpay] at h; cases h
        | some accs2 =>
          simp only [hpay] at h
          split at h
          · cases h
            obtain ⟨hk, hper⟩ := checkedDiv_eq_some hdiv
            refine ⟨by assumption, by simp_all, by assumption, hk,
              rfl, rfl, rfl, rfl, rfl, rfl, rfl, ?_, rfl⟩
            simp [hper]
          · cases h

lemma resetGame_ok_fields {s s2 : GameState} (h : resetGame s = .ok s2) :
    s2.total_deposits = 0 ∧ s2.prize_pool = 0 ∧ s2.active = false ∧
    s2.players = [] ∧ s2.winners = [] := by
  unfold resetGame at h
  split at h
  · cases h; exact ⟨rfl, rfl, rfl, rfl, rfl⟩
  · cases h

lemma mem_insertDesc {score : α → Nat} {x z : α} {l : List α}
    (h : z ∈ insertDesc score x l) : z = x ∨ z ∈ l := by
  induction l with
  | nil => simpa [insertDesc] using h
  | cons y ys ih =>
    unfold insertDesc at h
    split at h
    · rcases List.mem_cons.mp h with h1 | h2
      · exact Or.inr (by simp [h1])
      · rcases ih h2 with h3 | h4
        · exact Or.inl h3
        · exact Or.inr (List.mem_cons_self y ys |> fun _ => List.mem_cons.mpr (Or.inr h4))
    · rcases List.mem_cons.mp h with h1 | h2
      · exact Or.inl h1
      · exact Or.inr h2

lemma pairwise_insertDesc {score : α → Nat} {x : α} {l : List α}
    (h : l.Pairwise (fun a b => score b ≤ score a)) :
    (insertDesc score x l).Pairwise (fun a b => score b ≤ score a) := by
  induction l with
  | nil => simp [insertDesc]
  | cons y ys ih =>
    rw [List.pairwise_cons] at h
    obtain ⟨hy, hys⟩ := h
    unfold insertDesc
    split
    · rw [List.pairwise_cons]
      constructor
      · intro z hz
        rcases mem_insertDesc hz with h1 | h2
        · subst h1; omega
        · exact hy z h2
      · exact ih hys
    · rw [List.pairwise_cons]
      constructor
      · intro z hz
        rcases List.mem_cons.mp hz with h1 | h2
        · subst h1; omega
        · have := hy z h2; omega
      · exact List.pairwise_cons.mpr ⟨hy, hys⟩

lemma sortDesc_pairwise (score : α → Nat) (l : List α) :
    (sortDesc score l).Pairwise (fun a b => score b ≤ score a) := by
  induction l with
  | nil => simp [sortDesc]
  | cons x xs ih =>
    unfold sortDesc
    exact pairwise_insertDesc ih

lemma filter_insertDesc_ne {score : α → Nat} {x : α} {c : Nat}
    (l : List α) (hx : score x ≠ c) :
    (insertDesc score x l).filter (fun a => score a == c) =
      l.filter (fun a => score a == c) := by
  induction l with
  | nil => simp [insertDesc, hx]
  | cons y ys ih =>
    unfold insertDesc
    split
    · by_cases hy : score y = c
      · simp [List.filter_cons, hy, ih]
      · simp [List.filter_cons, hy, ih]
    · simp [List.filter_cons, hx]

lemma filter_insertDesc_eq {score : α → Nat} {x : α} {c : Nat}
    (l : List α) (hx : score x = c) :
    (insertDesc score x l).filter (fun a => score a == c) =
      x :: l.filter (fun a => score a == c) := by
  induction l with
  | nil => simp [insertDesc, hx]
  | cons y ys ih =>
    unfold insertDesc
    split
    · have hy : score y ≠ c := by omega
      simp only [List.filter_cons]
      simp [hy, ih]
    · simp [List.filter_cons, hx]

lemma filter_sortDesc (score : α → Nat) (c : Nat) (l : List α) :
    (sortDesc score l).filter (fun a => score a == c) =
      l.filter (fun a => score a == c) := by
  induction l with
  | nil => rfl
  | cons x xs ih =>
    unfold sortDesc
    by_cases hx : score x = c
    · rw [filter_insertDesc_eq _ hx, ih]
      simp [List.filter_cons, hx]
    · rw [filter_insertDesc_ne _ hx, ih]
      simp [List.filter_cons, hx]

lemma updScore_updScore (p : Player) (sc sc2 : Nat) (now now2 : Int) :
    updScore (updScore p sc now) sc2 now2 = updScore p sc2 now2 := rfl

lemma updFirst_get? (ps : List Player) (k sc : Nat) (now : Int) (j : Nat) :
    (updFirst ps k sc now).get? j =
      if idxOfKey (ps.map Player.key) k = some j then
        (ps.get? j).map (fun p => updScore p sc now)
      else ps.get? j := by
  induction ps generalizing j with
  | nil => simp [updFirst, idxOfKey]
  | cons p rest ih =>
    unfold updFirst idxOfKey
    by_cases hk : p.key = k
    · simp only [List.map_cons, hk, if_pos rfl]
      cases j with
      | zero => simp
      | succ j2 => simp
    · simp only [List.map_cons, if_neg hk]
      cases j with
      | zero =>
        have : (idxOfKey (rest.map Player.key) k).map (· + 1) ≠ some 0 := by
          cases idxOfKey (rest.map Player.key) k <;> simp
        simp [this]
      | succ j2 =>
        have hmap : ((idxOfKey (rest.map Player.key) k).map (· + 1) =
            some (j2 + 1)) ↔ idxOfKey (rest.map Player.key) k = some j2 := by
          cases idxOfKey (rest.map Player.key) k <;> simp
        show (updFirst rest k sc now).get? j2 =
          if (idxOfKey (rest.map Player.key) k).map (· + 1) = some (j2 + 1)
          then (rest.get? j2).map (fun p => updScore p sc now)
          else rest.get? j2
        simp only [hmap]
        exact ih j2

lemma lastW_cons (ks : List Nat) (j : Nat) (e : Nat × Nat)
    (rest : List (Nat × Nat)) :
    lastW ks (e :: rest) j =
      match lastW ks rest j with
      | some v => some v
      | none => if idxOfKey ks e.1 = some j then some e.2 else none := rfl

lemma applyScores_get? (ss : List (Nat × Nat)) (ps : List Player) (now : Int)
    (j : Nat) :
    (applyScores ps ss now).get? j =
      match lastW (ps.map Player.key) ss j with
      | none => ps.get? j
      | some sc => (ps.get? j).map (fun p => updScore p sc now) := by
  induction ss generalizing ps with
  | nil => simp [applyScores, lastW]
  | cons e rest ih =>
    obtain ⟨k, sc⟩ := e
    have hstep : applyScores ps ((k, sc) :: rest) now =
        applyScores (updFirst ps k sc now) rest now := rfl
    rw [hstep, ih, updFirst_map_key, lastW_cons]
    cases hlast : lastW (ps.map Player.key) rest j with
    | some sc2 =>
      rw [updFirst_get?]
      by_cases hidx : idxOfKey (ps.map Player.key) k = some j
      · simp only [if_pos hidx, Option.map_map]
        cases ps.get? j <;> simp [updScore_updScore]
      · simp [hidx]
    | none =>
      rw [updFirst_get?]
      by_cases hidx : idxOfKey (ps.map Player.key) k = some j
      · simp [hidx]
      · simp [hidx]

lemma applyScores_idem (ps : List Player) (ss : List (Nat × Nat)) (now : Int) :
    applyScores (applyScores ps ss now) ss now = applyScores ps ss now := by
  rw [List.ext_get?_iff]
  intro j
  rw [applyScores_get? ss (applyScores ps ss now) now j, applyScores_map_key,
    applyScores_get? ss ps now j]
  cases hlast : lastW (ps.map Player.key) ss j with
  | none => rfl
  | some sc =>
    cases ps.get? j <;> simp [updScore_updScore]

lemma updFirst_not_mem (ps : List Player) (k sc : Nat) (now : Int)
    (h : k ∉ ps.map Player.key) : updFirst ps k sc now = ps := by
  induction ps with
  | nil => rfl
  | cons p rest ih =>
    simp only [List.map_cons, List.mem_cons] at h
    push_neg at h
    unfold updFirst
    rw [if_neg (fun hk => h.1 hk.symm), ih h.2]

lemma applyScores_not_mem (ps : List Player) (ss : List (Nat × Nat))
    (now : Int) (h : ∀ e ∈ ss, e.1 ∉ ps.map Player.key) :
    applyScores ps ss now = ps := by
  induction ss with
  | nil => rfl
  | cons e rest ih =>
    obtain ⟨k, sc⟩ := e
    have h1 : k ∉ ps.map Player.key := h (k, sc) (List.mem_cons_self _ _)
    show applyScores (updFirst ps k sc now) rest now = ps
    rw [updFirst_not_mem _ _ _ _ h1]
    exact ih (fun e he => h e (List.mem_cons_of_mem _ he))

lemma updPlayersChecked_overflow {ps : List Player} {k a : Nat} {now : Int}
    {p : Player} (hf : ps.find? (fun q => q.key == k) = some p)
    (hov : U64MAX < p.deposit + a) :
    updPlayersChecked ps k a now = none := by
  induction ps with
  | nil => simp [List.find?] at hf
  | cons q rest ih =>
    by_cases hk : q.key = k
    · have : q = p := by
        rw [List.find?_cons_of_pos _ (by simp [hk])] at hf
        exact Option.some.inj hf
      subst this
      unfold updPlayersChecked
      rw [if_pos hk]
      unfold checkedAdd
      rw [if_neg (by omega)]
      rfl
    · rw [List.find?_cons_of_neg _ (by simp [hk])] at hf
      unfold updPlayersChecked
      rw [if_neg hk, ih hf]
      rfl

lemma sum_nil_eq : sumDeposits [] = 0 := rfl

/-! ## Claim theorems -/

/-- C10: in every state of the on-chain program reachable through
completed instructions, `prize_pool` equals `total_deposits`:
`initialize` and `reset_game` set both to `0`, `deposit` re-assigns
`prize_pool` from the checked new total, and `select_winners` zeroes both
together. -/
theorem prize_pool_eq_total_deposits_invariant (s : GameState)
    (h : Reachable s) : s.prize_pool = s.total_deposits := by
  induction h with
  | init gid => rfl
  | dep k a now hs hok ih =>
    obtain ⟨ht, hp, _⟩ := rustDeposit_ok_fields hok
    rw [ht, hp]
  | eval scores now hs ih => exact ih
  | select accs burnOk hs hok ih =>
    obtain ⟨_, _, _, _, _, ht, hp, _⟩ := selectWinnersCore_ok_fields hok
    rw [ht, hp]
  | reset hs hok ih =>
    obtain ⟨ht, hp, _⟩ := resetGame_ok_fields hok
    rw [ht, hp]

/-- Witness for C10: the invariant evaluated on the state reached by
`initialize` followed by one deposit of 100 by player 1. -/
theorem prize_pool_eq_total_deposits_invariant_witness :
    (⟨100, 100, false, [⟨1, 100, 0, 0⟩], [], 0⟩ : GameState).prize_pool =
    (⟨100, 100, false, [⟨1, 100, 0, 0⟩], [], 0⟩ : GameState).total_deposits :=
  prize_pool_eq_total_deposits_invariant _
    (Reachable.dep 1 100 0 (Reachable.init 0) (by decide))

/-- C2 counterexample: the claim fails right after a completed
`select_winners`.  From `initialize`, a deposit of 100 by player 1 and a
successful settlement reach a state whose `total_deposits` is `0` while
the sum of the (retained) participant deposit records is `100`:
`select_winners` zeroes the pool but does not clear `players`. -/
theorem pool_conservation_settled_cex :
    Reachable ⟨0, 0, true, [⟨1, 100, 0, 0⟩], [⟨1, 100, 0, 0⟩], 0⟩ ∧
    ¬((⟨0, 0, true, [⟨1, 100, 0, 0⟩], [⟨1, 100, 0, 0⟩], 0⟩ :
        GameState).total_deposits =
      sumDeposits (⟨0, 0, true, [⟨1, 100, 0, 0⟩], [⟨1, 100, 0, 0⟩], 0⟩ :
        GameState).players) := by
  constructor
  · have hsel : selectWinnersCore ⟨100, 100, false, [⟨1, 100, 0, 0⟩], [], 0⟩
        [⟨1, 0⟩] true =
        .ok ⟨⟨0, 0, true, [⟨1, 100, 0, 0⟩], [⟨1, 100, 0, 0⟩], 0⟩,
             [⟨1, 90⟩], ⟨[1], 90, 10⟩⟩ := by decide
    exact Reachable.select [⟨1, 0⟩] true
      (Reachable.dep 1 100 0 (Reachable.init 0) (by decide)) hsel
  · decide

/-- C2 (amended): pool conservation `total_deposits = Σ deposit` holds in
every reachable state that is not settled (`active = false`), i.e. after
`initialize`, after every completed `deposit` and
`evaluate_trading_activity`, and after `reset_game`; after a completed
`select_winners` the pool is zeroed while the participant deposit records
are retained until reset, so the equality is deliberately broken in the
Settled state. -/
theorem pool_conservation_open_states (s : GameState) (h : Reachable s) :
    s.active = false → s.total_deposits = sumDeposits s.players := by
  induction h with
  | init gid => intro _; rfl
  | dep k a now hs hok ih =>
    intro ha2
    obtain ⟨ht, _, hac, _, _, hsum⟩ := rustDeposit_ok_fields hok
    rw [ht, hsum, ih (hac ▸ ha2)]
  | @eval s scores now hs ih =>
    intro ha2
    show s.total_deposits = sumDeposits (applyScores s.players scores now)
    rw [applyScores_sumDeposits]
    exact ih ha2
  | select accs burnOk hs hok ih =>
    intro ha2
    obtain ⟨_, _, _, _, _, _, _, hact, _⟩ := selectWinnersCore_ok_fields hok
    rw [hact] at ha2
    cases ha2
  | reset hs hok ih =>
    intro _
    obtain ⟨ht, _, _, hps, _⟩ := resetGame_ok_fields hok
    rw [ht, hps]
    rfl

/-- Witness for C2 (amended): the conservation equality evaluated on the
open state reached by `initialize` and one deposit of 100 by player 1. -/
theorem pool_conservation_open_states_witness :
    (⟨100, 100, false, [⟨1, 100, 0, 0⟩], [], 0⟩ : GameState).total_deposits =
    sumDeposits (⟨100, 100, false, [⟨1, 100, 0, 0⟩], [], 0⟩ :
      GameState).players :=
  pool_conservation_open_states _
    (Reachable.dep 1 100 0 (Reachable.init 0) (by decide)) rfl

/-- C3 counterexample: settle a round whose pool is 99.  The code pays
`99 * 90 / 100 = 89` and burns `99 * 10 / 100 = 9`; their sum is 98, not
99, and the burn amount is not `floor` plus the truncation residual
(which would be 10): the residual base unit is silently stranded. -/
theorem settlement_residual_lost_cex :
    selectWinnersCore ⟨99, 99, false, [⟨1, 99, 0, 0⟩], [], 0⟩ [⟨1, 0⟩] true =
      .ok ⟨⟨0, 0, true, [⟨1, 99, 0, 0⟩], [⟨1, 99, 0, 0⟩], 0⟩,
           [⟨1, 89⟩], ⟨[1], 89, 9⟩⟩ ∧
    89 + 9 ≠ 99 ∧
    (9 : Nat) ≠ 99 * 10 / 100 + (99 - 99 * 90 / 100 - 99 * 10 / 100) := by
  decide

/-- C3 (amended): for every successful settlement with pool `P`,
`payout_pool = P * 90 / 100` and the burned amount `P * 10 / 100` are
two independent truncations: their sum is at most `P`, the deficit is at
most one base unit (zero exactly when `P` is divisible by 10), and the
residual is dropped, not added to the burn.  The winners' total payout
`winner_count * prize_per_winner` is at most `payout_pool`, short of it
by at most `winner_count - 1` base units. -/
theorem settlement_split_bounds (s : GameState) (accs : List Account)
    (burnOk : Bool) (r : SettleResult)
    (h : selectWinnersCore s accs burnOk = .ok r) :
    s.prize_pool * 90 / 100 + r.event.buybackAmount ≤ s.prize_pool ∧
    s.prize_pool - (s.prize_pool * 90 / 100 + r.event.buybackAmount) ≤ 1 ∧
    (s.prize_pool * 90 / 100 + r.event.buybackAmount = s.prize_pool ↔
      s.prize_pool % 10 = 0) ∧
    r.state.winners.length * r.event.prizePerWinner ≤
      s.prize_pool * 90 / 100 ∧
    s.prize_pool * 90 / 100 -
        r.state.winners.length * r.event.prizePerWinner <
      r.state.winners.length := by
  obtain ⟨_, _, _, hk, hws, _, _, _, _, _, _, hper, hbb⟩ :=
    selectWinnersCore_ok_fields h
  have hlen : r.state.winners.length = numWinners s.players.length := by
    rw [hws, List.length_take, length_sortDesc]
    unfold numWinners at hk ⊢
    omega
  rw [hbb, hlen, hper]
  refine ⟨by omega, by omega, by omega, ?_, ?_⟩
  · calc numWinners s.players.length *
        (s.prize_pool * 90 / 100 / numWinners s.players.length) ≤
        s.prize_pool * 90 / 100 / numWinners s.players.length *
          numWinners s.players.length := by rw [Nat.mul_comm]
    _ ≤ s.prize_pool * 90 / 100 := Nat.div_mul_le_self _ _
  · have hmod := Nat.div_add_mod (s.prize_pool * 90 / 100)
      (numWinners s.players.length)
    have hlt : (s.prize_pool * 90 / 100) % numWinners s.players.length <
        numWinners s.players.length :=
      Nat.mod_lt _ (Nat.pos_of_ne_zero hk)
    generalize hq : numWinners s.players.length *
      (s.prize_pool * 90 / 100 / numWinners s.players.length) = t at hmod ⊢
    omega

/-- Witness for C3 (amended): the bounds evaluated on the settlement of a
single-player round with pool 99. -/
theorem settlement_split_bounds_witness :
    (99 : Nat) * 90 / 100 +
      (⟨[1], 89, 9⟩ : WinnersEvt).buybackAmount ≤ 99 ∧
    99 - (99 * 90 / 100 + (⟨[1], 89, 9⟩ : WinnersEvt).buybackAmount) ≤ 1 ∧
    (99 * 90 / 100 + (⟨[1], 89, 9⟩ : WinnersEvt).buybackAmount = 99 ↔
      99 % 10 = 0) ∧
    ([⟨1, 99, 0, 0⟩] : List Player).length *
        (⟨[1], 89, 9⟩ : WinnersEvt).prizePerWinner ≤ 99 * 90 / 100 ∧
    99 * 90 / 100 -
        ([⟨1, 99, 0, 0⟩] : List Player).length *
          (⟨[1], 89, 9⟩ : WinnersEvt).prizePerWinner <
      ([⟨1, 99, 0, 0⟩] : List Player).length :=
  settlement_split_bounds ⟨99, 99, false, [⟨1, 99, 0, 0⟩], [], 0⟩ [⟨1, 0⟩]
    true ⟨⟨0, 0, true, [⟨1, 99, 0, 0⟩], [⟨1, 99, 0, 0⟩], 0⟩,
          [⟨1, 89⟩], ⟨[1], 89, 9⟩⟩ (by decide)

/-- C6: every successful `select_winners` on a round with `n` players
selects exactly `⌈n * 0.10⌉ = (n + 9) / 10` winners; this count is at
least 1 (settlement with zero players fails at the checked division), is
exactly 1 for `1 ≤ n ≤ 9` and for `n = 10`, and is exactly 2 for
`n = 11`. -/
theorem winner_count_ceil_decile (s : GameState) (accs : List Account)
    (burnOk : Bool) (r : SettleResult)
    (h : selectWinnersCore s accs burnOk = .ok r) :
    r.state.winners.length = numWinners s.players.length ∧
    1 ≤ r.state.winners.length ∧
    (1 ≤ s.players.length ∧ s.players.length ≤ 9 →
      r.state.winners.length = 1) ∧
    (s.players.length = 10 → r.state.winners.length = 1) ∧
    (s.players.length = 11 → r.state.winners.length = 2) := by
  obtain ⟨_, _, _, hk, hws, _⟩ := selectWinnersCore_ok_fields h
  have hlen : r.state.winners.length = numWinners s.players.length := by
    rw [hws, List.length_take, length_sortDesc]
    unfold numWinners at hk ⊢
    omega
  rw [hlen]
  unfold numWinners at hk ⊢
  exact ⟨rfl, by omega, fun hn => by omega, fun hn => by omega,
    fun hn => by omega⟩

/-- Witness for C6: the winner count of the settlement of a two-player
round is `(2 + 9) / 10 = 1`. -/
theorem winner_count_ceil_decile_witness :
    (⟨⟨0, 0, true, [⟨1, 60, 1, 0⟩, ⟨2, 40, 2, 0⟩],
        [⟨2, 40, 2, 0⟩], 0⟩, [⟨2, 90⟩], ⟨[2], 90, 10⟩⟩ :
      SettleResult).state.winners.length =
      numWinners ([⟨1, 60, 1, 0⟩, ⟨2, 40, 2, 0⟩] : List Player).length ∧
    1 ≤ (⟨⟨0, 0, true, [⟨1, 60, 1, 0⟩, ⟨2, 40, 2, 0⟩],
        [⟨2, 40, 2, 0⟩], 0⟩, [⟨2, 90⟩], ⟨[2], 90, 10⟩⟩ :
      SettleResult).state.winners.length ∧
    (1 ≤ ([⟨1, 60, 1, 0⟩, ⟨2, 40, 2, 0⟩] : List Player).length ∧
        ([⟨1, 60, 1, 0⟩, ⟨2, 40, 2, 0⟩] : List Player).length ≤ 9 →
      (⟨⟨0, 0, true, [⟨1, 60, 1, 0⟩, ⟨2, 40, 2, 0⟩],
          [⟨2, 40, 2, 0⟩], 0⟩, [⟨2, 90⟩], ⟨[2], 90, 10⟩⟩ :
        SettleResult).state.winners.length = 1) ∧
    (([⟨1, 60, 1, 0⟩, ⟨2, 40, 2, 0⟩] : List Player).length = 10 →
      (⟨⟨0, 0, true, [⟨1, 60, 1, 0⟩, ⟨2, 40, 2, 0⟩],
          [⟨2, 40, 2, 0⟩], 0⟩, [⟨2, 90⟩], ⟨[2], 90, 10⟩⟩ :
        SettleResult).state.winners.length = 1) ∧
    (([⟨1, 60, 1, 0⟩, ⟨2, 40, 2, 0⟩] : List Player).length = 11 →
      (⟨⟨0, 0, true, [⟨1, 60, 1, 0⟩, ⟨2, 40, 2, 0⟩],
          [⟨2, 40, 2, 0⟩], 0⟩, [⟨2, 90⟩], ⟨[2], 90, 10⟩⟩ :
        SettleResult).state.winners.length = 2) :=
  winner_count_ceil_decile ⟨100, 100, false,
      [⟨1, 60, 1, 0⟩, ⟨2, 40, 2, 0⟩], [], 0⟩ [⟨2, 0⟩] true
    ⟨⟨0, 0, true, [⟨1, 60, 1, 0⟩, ⟨2, 40, 2, 0⟩],
        [⟨2, 40, 2, 0⟩], 0⟩, [⟨2, 90⟩], ⟨[2], 90, 10⟩⟩ (by decide)

/-- C4 (code bug): the code ranks by `trading_score` alone.  Concrete
run: player 1 has trading score 100 and (per the documentation's data)
the maximal holdings sub-score 1 000 000, player 2 has trading score 200
and zero holdings; speed and random are equal.  The documented composite
puts player 1 strictly first (550 000 > 300 000), yet `select_winners`
pays player 2: the `Player` account data has no holdings, speed or random
fields at all, so the documented four-signal formula cannot be and is not
what the sort uses. -/
theorem winners_by_trading_score_only :
    selectWinnersCore
        ⟨2000, 2000, false, [⟨1, 1000, 100, 0⟩, ⟨2, 1000, 200, 0⟩], [], 0⟩
        [⟨2, 0⟩] true =
      .ok ⟨⟨0, 0, true, [⟨1, 1000, 100, 0⟩, ⟨2, 1000, 200, 0⟩],
            [⟨2, 1000, 200, 0⟩], 0⟩, [⟨2, 1800⟩], ⟨[2], 1800, 200⟩⟩ ∧
    specComposite 1000000 500000 0 0 > specComposite 0 1000000 0 0 := by
  decide

/-- C5 counterexample: two players with equal trading score 5, inserted
in the order key 2 then key 1.  The claimed ascending-identity tie-break
would rank key 1 first and pay key 1; the code's stable sort keeps
insertion order and pays key 2. -/
theorem tie_break_insertion_order_cex :
    selectWinnersCore
        ⟨200, 200, false, [⟨2, 100, 5, 0⟩, ⟨1, 100, 5, 0⟩], [], 0⟩
        [⟨2, 0⟩] true =
      .ok ⟨⟨0, 0, true, [⟨2, 100, 5, 0⟩, ⟨1, 100, 5, 0⟩],
            [⟨2, 100, 5, 0⟩], 0⟩, [⟨2, 180⟩], ⟨[2], 180, 20⟩⟩ ∧
    ((specTieSort [⟨2, 100, 5, 0⟩, ⟨1, 100, 5, 0⟩]).take 1).map Player.key =
      [1] ∧
    ([2] : List Nat) ≠ [1] := by
  decide

/-- C5 (amended): winner selection is deterministic because the sort is
the stable descending sort by trading score: its output is descending,
players of any fixed score keep their original (insertion/join) order —
ties are broken by insertion order, not by ascending identity — and the
winners of a successful settlement are exactly the first
`⌈n * 0.10⌉` entries of that uniquely determined order, so repeated runs
on the same round data give identical winners in identical order. -/
theorem ranking_stable_deterministic (l : List Player) (c : Nat)
    (s : GameState) (accs : List Account) (burnOk : Bool)
    (r : SettleResult) :
    (sortDesc Player.trading_score l).Pairwise
      (fun a b => b.trading_score ≤ a.trading_score) ∧
    (sortDesc Player.trading_score l).filter
        (fun p => p.trading_score == c) =
      l.filter (fun p => p.trading_score == c) ∧
    (selectWinnersCore s accs burnOk = .ok r →
      r.state.winners =
        (sortDesc Player.trading_score s.players).take
          (numWinners s.players.length)) :=
  ⟨sortDesc_pairwise _ _, filter_sortDesc _ _ _,
    fun h => (selectWinnersCore_ok_fields h).2.2.2.2.1⟩

/-- Witness for C5 (amended): evaluated on the tied two-player round. -/
theorem ranking_stable_deterministic_witness :
    (sortDesc Player.trading_score [⟨2, 100, 5, 0⟩, ⟨1, 100, 5, 0⟩]).Pairwise
      (fun a b => b.trading_score ≤ a.trading_score) ∧
    (sortDesc Player.trading_score
        [⟨2, 100, 5, 0⟩, ⟨1, 100, 5, 0⟩]).filter
        (fun p => p.trading_score == 5) =
      ([⟨2, 100, 5, 0⟩, ⟨1, 100, 5, 0⟩] : List Player).filter
        (fun p => p.trading_score == 5) ∧
    (selectWinnersCore
        ⟨200, 200, false, [⟨2, 100, 5, 0⟩, ⟨1, 100, 5, 0⟩], [], 0⟩
        [⟨2, 0⟩] true =
      .ok ⟨⟨0, 0, true, [⟨2, 100, 5, 0⟩, ⟨1, 100, 5, 0⟩],
            [⟨2, 100, 5, 0⟩], 0⟩, [⟨2, 180⟩], ⟨[2], 180, 20⟩⟩ →
      (⟨⟨0, 0, true, [⟨2, 100, 5, 0⟩, ⟨1, 100, 5, 0⟩],
          [⟨2, 100, 5, 0⟩], 0⟩, [⟨2, 180⟩], ⟨[2], 180, 20⟩⟩ :
        SettleResult).state.winners =
        (sortDesc Player.trading_score
            ([⟨2, 100, 5, 0⟩, ⟨1, 100, 5, 0⟩] : List Player)).take
          (numWinners
            ([⟨2, 100, 5, 0⟩, ⟨1, 100, 5, 0⟩] : List Player).length)) :=
  ranking_stable_deterministic [⟨2, 100, 5, 0⟩, ⟨1, 100, 5, 0⟩] 5
    ⟨200, 200, false, [⟨2, 100, 5, 0⟩, ⟨1, 100, 5, 0⟩], [], 0⟩
    [⟨2, 0⟩] true
    ⟨⟨0, 0, true, [⟨2, 100, 5, 0⟩, ⟨1, 100, 5, 0⟩],
        [⟨2, 100, 5, 0⟩], 0⟩, [⟨2, 180⟩], ⟨[2], 180, 20⟩⟩

/-- C7 counterexample: a deposit of 50 by player 2 on a settled round
(`active = true`) succeeds on the on-chain program and mutates the pool —
the claim requires it to fail with a state-guard error.  The source
`deposit` checks only `amount > 0`. -/
theorem rust_deposit_no_state_guard_cex :
    rustDeposit ⟨100, 100, true, [⟨1, 100, 0, 0⟩], [], 0⟩ 2 50 7 =
      .ok ⟨150, 150, true, [⟨1, 100, 0, 0⟩, ⟨2, 50, 0, 7⟩], [], 0⟩ := by
  decide

/-- C7 (amended): the two implementations enforce complementary halves of
the claimed guard.  The on-chain `deposit` checks only `amount > 0`: its
success is independent of the `active` flag, so deposits are accepted on
settled rounds.  The backend `deposit` rejects a missing game and an
active (settled) game without touching any state, but imposes no amount
guard: on an open game every amount — zero or negative included — is
accepted. -/
theorem deposit_guard_asymmetry (s : GameState) (k a : Nat) (now : Int)
    (g : BGame) (k2 : Nat) (a2 : Int) :
    exOk (rustDeposit { s with active := true } k a now) =
      exOk (rustDeposit { s with active := false } k a now) ∧
    backendDeposit none k2 a2 = .error .GameNotActiveOrMissing ∧
    (g.active = true →
      backendDeposit (some g) k2 a2 = .error .GameNotActiveOrMissing) ∧
    (g.active = false → exOk (backendDeposit (some g) k2 a2) = true) := by
  refine ⟨?_, rfl, ?_, ?_⟩
  · show exOk (rustDeposit ⟨s.total_deposits, s.prize_pool, true, s.players,
        s.winners, s.game_id⟩ k a now) =
      exOk (rustDeposit ⟨s.total_deposits, s.prize_pool, false, s.players,
        s.winners, s.game_id⟩ k a now)
    unfold rustDeposit
    by_cases h0 : a = 0
    · simp [h0]
    · simp only [h0, if_false]
      cases updPlayersChecked s.players k a now with
      | none => rfl
      | some ps2 =>
        cases checkedAdd s.total_deposits a with
        | none => rfl
        | some t2 => rfl
  · intro hg
    simp [backendDeposit, hg]
  · intro hg
    simp [backendDeposit, hg, exOk]

/-- Witness for C7 (amended): evaluated with a settled on-chain round, a
positive amount, and a backend zero-amount deposit on an open game. -/
theorem deposit_guard_asymmetry_witness :
    exOk (rustDeposit { (⟨100, 100, false, [⟨1, 100, 0, 0⟩], [], 0⟩ :
        GameState) with active := true } 2 50 7) =
      exOk (rustDeposit { (⟨100, 100, false, [⟨1, 100, 0, 0⟩], [], 0⟩ :
        GameState) with active := false } 2 50 7) ∧
    backendDeposit none 2 0 = .error .GameNotActiveOrMissing ∧
    ((⟨10, 10, true, [⟨1, 10, 0⟩]⟩ : BGame).active = true →
      backendDeposit (some ⟨10, 10, true, [⟨1, 10, 0⟩]⟩) 2 0 =
        .error .GameNotActiveOrMissing) ∧
    ((⟨10, 10, true, [⟨1, 10, 0⟩]⟩ : BGame).active = false →
      exOk (backendDeposit (some ⟨10, 10, true, [⟨1, 10, 0⟩]⟩) 2 0) = true) :=
  deposit_guard_asymmetry ⟨100, 100, false, [⟨1, 100, 0, 0⟩], [], 0⟩ 2 50 7
    ⟨10, 10, true, [⟨1, 10, 0⟩]⟩ 2 0

/-- C8: a deposit whose amount would push the matched player's
accumulated deposit or `total_deposits` past the `u64` maximum fails with
`Overflow`, and the aborted transaction leaves the game account — both
`total_deposits` and every player's `deposit` — exactly as before the
call. -/
theorem deposit_overflow_atomic (s : GameState) (k a : Nat) (now : Int)
    (ha : a ≠ 0)
    (hover : (match s.players.find? (fun q => q.key == k) with
              | some p => U64MAX < p.deposit + a
              | none => False) ∨ U64MAX < s.total_deposits + a) :
    runDeposit s k a now = (s, some .Overflow) := by
  have herr : rustDeposit s k a now = .error .Overflow := by
    unfold rustDeposit
    rw [if_neg ha]
    rcases hover with hp | ht
    · cases hf : s.players.find? (fun q => q.key == k) with
      | none => rw [hf] at hp; cases hp
      | some p =>
        rw [hf] at hp
        rw [updPlayersChecked_overflow hf hp]
    · cases hup : updPlayersChecked s.players k a now with
      | none => rfl
      | some ps2 =>
        have : checkedAdd s.total_deposits a = none := by
          unfold checkedAdd
          rw [if_neg (by omega)]
        rw [this]
  unfold runDeposit
  rw [herr]

/-- Witness for C8: a deposit of one base unit on a round already holding
the `u64` maximum fails with `Overflow` and leaves the state intact. -/
theorem deposit_overflow_atomic_witness :
    runDeposit ⟨U64MAX, U64MAX, false, [⟨1, U64MAX, 0, 0⟩], [], 0⟩ 1 1 0 =
      (⟨U64MAX, U64MAX, false, [⟨1, U64MAX, 0, 0⟩], [], 0⟩,
       some .Overflow) :=
  deposit_overflow_atomic ⟨U64MAX, U64MAX, false, [⟨1, U64MAX, 0, 0⟩], [], 0⟩
    1 1 0 (by decide) (Or.inr (by decide))

/-- C9: `evaluate_trading_activity` overwrites scores, so applying the
same `scores` vector twice (with the same clock reading) produces exactly
the state of applying it once; and a `scores` vector all of whose ids are
absent from the round's player registry changes nothing and still
succeeds — unknown ids are skipped silently, never failing the batch. -/
theorem evaluate_scores_idempotent_ignores_unknown (s : GameState)
    (scores : List (Nat × Nat)) (now : Int) :
    evaluateTradingActivity (evaluateTradingActivity s scores now) scores
        now =
      evaluateTradingActivity s scores now ∧
    ((∀ e ∈ scores, e.1 ∉ s.players.map Player.key) →
      evaluateTradingActivity s scores now = s) := by
  constructor
  · unfold evaluateTradingActivity
    rw [applyScores_idem]
  · intro h
    unfold evaluateTradingActivity
    rw [applyScores_not_mem _ _ _ h]

/-- Witness for C9: evaluated on a one-player round, once with a score
overwrite for the registered player 1 and once with a vector naming only
the unregistered id 9. -/
theorem evaluate_scores_idempotent_ignores_unknown_witness :
    (evaluateTradingActivity
        (evaluateTradingActivity ⟨5, 5, false, [⟨1, 5, 3, 0⟩], [], 0⟩
          [(1, 7), (9, 4)] 2) [(1, 7), (9, 4)] 2 =
      evaluateTradingActivity ⟨5, 5, false, [⟨1, 5, 3, 0⟩], [], 0⟩
        [(1, 7), (9, 4)] 2) ∧
    ((∀ e ∈ ([(9, 4)] : List (Nat × Nat)),
        e.1 ∉ ([⟨1, 5, 3, 0⟩] : List Player).map Player.key) →
      evaluateTradingActivity ⟨5, 5, false, [⟨1, 5, 3, 0⟩], [], 0⟩
          [(9, 4)] 2 =
        ⟨5, 5, false, [⟨1, 5, 3, 0⟩], [], 0⟩) :=
  ⟨(evaluate_scores_idempotent_ignores_unknown
      ⟨5, 5, false, [⟨1, 5, 3, 0⟩], [], 0⟩ [(1, 7), (9, 4)] 2).1,
   (evaluate_scores_idempotent_ignores_unknown
      ⟨5, 5, false, [⟨1, 5, 3, 0⟩], [], 0⟩ [(9, 4)] 2).2⟩

/-- C1 counterexample: the backend `selectWinners` is not atomic.  On a
one-player open game with pool 1000 and a failing burn step, the call
fails — yet the winner row `(player 1, prize 900)` has already been
persisted by `winnerRepository.save`, which runs before the burn and is
not wrapped in any transaction: a failed settle leaves a partial
settlement record, contradicting the claim that every failure leaves the
round exactly as before. -/
theorem backend_settle_partial_winners_cex :
    backendSelectWinners (some ⟨1000, 1000, false, [⟨1, 1000, 50⟩]⟩) false =
      ([⟨1, 900⟩], .error .BurnFailed) ∧
    ([⟨1, 900⟩] : List BWinner) ≠ [] := by
  decide

/-- C1 (amended): atomicity holds for the on-chain program only.  Any
failing `select_winners` instruction — missing winner account, failed
burn, guard or division error — aborts the Solana transaction, and the
game account and every winner lamport account revert to their pre-call
state.  The backend `selectWinners`, by contrast, persists one winner row
per selected winner before the burn step, so a burn failure errors out
while exactly `⌈n * 0.10⌉` winner rows remain saved (and the game row is
left unsaved). -/
theorem settle_atomicity (s : GameState) (accs : List Account)
    (burnOk : Bool) (g : BGame) :
    ((runSelectWinners s accs burnOk).2 ≠ none →
      (runSelectWinners s accs burnOk).1 = (s, accs)) ∧
    (g.active = false →
      (backendSelectWinners (some g) false).2 = .error .BurnFailed ∧
      (backendSelectWinners (some g) false).1.length =
        numWinners g.players.length) := by
  constructor
  · intro h
    unfold runSelectWinners at h ⊢
    cases hc : selectWinnersCore s accs burnOk with
    | ok r => rw [hc] at h; simp at h
    | error e => rfl
  · intro hg
    refine ⟨?_, ?_⟩
    · simp [backendSelectWinners, hg]
    · simp [backendSelectWinners, hg, List.length_take, length_sortDesc]
      unfold numWinners
      omega

/-- Witness for C1 (amended): the on-chain half evaluated on a failing
settlement of a fresh round (no deposits), the backend half on the
one-player game with a failing burn. -/
theorem settle_atomicity_witness :
    (runSelectWinners (initGame 0) [] true).1 = (initGame 0, []) ∧
    ((backendSelectWinners (some ⟨1000, 1000, false, [⟨1, 1000, 50⟩]⟩)
        false).2 = .error .BurnFailed ∧
      (backendSelectWinners (some ⟨1000, 1000, false, [⟨1, 1000, 50⟩]⟩)
          false).1.length =
        numWinners ([⟨1, 1000, 50⟩] : List BPlayer).length) :=
  ⟨(settle_atomicity (initGame 0) [] true
      ⟨1000, 1000, false, [⟨1, 1000, 50⟩]⟩).1 (by decide),
   (settle_atomicity (initGame 0) [] true
      ⟨1000, 1000, false, [⟨1, 1000, 50⟩]⟩).2 rfl⟩
